import Mathlib

/-
  Verification of the xmlem rendering module (src/src/display.rs).

  The renderer is embedded shallowly: rendered text is a `List Char`, the
  sink-writing recursion becomes a pure function returning a `PResult`
  that records both the text written so far and, when the render aborts,
  the cause of the abort.  The source aborts by `unwrap()` panics; those
  aborts are modelled as the error values `brokenReference` (a key with
  no entry in `nodes`) and `invalidRoot` (the root node is not an
  Element), matching the error taxonomy the specification gives to these
  two panic sites.  The recursion over the arena (children are keys, so
  a document can be cyclic) is bounded by an explicit fuel parameter;
  running out of fuel is the third abort cause, `fuelOut`.

  Rust `str::len` is a UTF-8 byte count; here string lengths are
  character counts, which agree on ASCII data.
-/

namespace Xmlem

/-- Rendered text: a list of characters. -/
abbrev Str := List Char

/-- The apostrophe character, written via its code point. -/
def apos : Char := Char.ofNat 39

/-- Entity escaping mode, from `EntityMode` in src/src/display.rs. -/
inductive EntityMode where
  | Standard
  | Hex
deriving DecidableEq, Repr

/-- Rendering configuration, from `Config` in src/src/display.rs. -/
structure Config where
  is_pretty : Bool
  indent : Nat
  max_line_length : Nat
  entity_mode : EntityMode
deriving DecidableEq, Repr

/-- `Config::default()` (all fields zero / false / Standard). -/
def Config.default : Config := ⟨false, 0, 0, .Standard⟩

/-- `Config::default_pretty()` from src/src/display.rs. -/
def Config.default_pretty : Config := ⟨true, 2, 120, .Standard⟩

/-- Modelled from the spec: an Element node carries a tag name and an
ordered sequence of child node keys (value.rs is not under src/; the
shape follows spec §3 and the uses in display.rs). Keys are `Nat`. -/
structure ElementValue where
  name : Str
  children : List Nat
deriving DecidableEq, Repr

/-- Modelled from the spec: the closed node variant of spec §3
(value.rs is not under src/). -/
inductive NodeValue where
  | element (e : ElementValue)
  | text (s : Str)
  | cdata (s : Str)
  | documentType (s : Str)
  | comment (s : Str)
deriving DecidableEq, Repr

/-- `NodeValue::as_element`: some iff the node is an Element. -/
def NodeValue.as_element : NodeValue → Option ElementValue
  | .element e => some e
  | _ => none

/-- Modelled from the spec: the XML declaration, three independently
optional string fields (document.rs is not under src/). -/
structure Declaration where
  version : Option Str
  encoding : Option Str
  standalone : Option Str
deriving DecidableEq, Repr

/-- Modelled from the spec: the arena document of spec §3
(document.rs is not under src/).  `nodes` and `attrs` are association
lists keyed by node key; `before` / `after` are the leading and trailing
top-level sibling keys. -/
structure Document where
  nodes : List (Nat × NodeValue)
  attrs : List (Nat × List (Str × Str))
  root_key : Nat
  decl : Option Declaration
  before : List Nat
  after : List Nat
deriving DecidableEq, Repr

/-- Cause of an aborted render: the two `unwrap()` panic sites of
display.rs (dangling key, non-element root) plus fuel exhaustion, which
stands for the unbounded recursion a cyclic arena would cause. -/
inductive RenderError where
  | brokenReference
  | invalidRoot
  | fuelOut
deriving DecidableEq, Repr

/-- Result of a render step: the text written by the step, and on abort
the cause.  `err out e` means `out` was already written to the sink when
the abort happened. -/
inductive PResult where
  | ok (out : Str)
  | err (out : Str) (e : RenderError)
deriving DecidableEq, Repr

/-- Sequencing of two render steps: text concatenates; an abort on the
left suppresses the right, an abort on the right keeps the left text. -/
def PResult.and : PResult → PResult → PResult
  | .ok s, .ok t => .ok (s ++ t)
  | .ok s, .err t e => .err (s ++ t) e
  | .err s e, _ => .err s e

/-- The text a render step wrote, whether or not it aborted. -/
def PResult.out : PResult → Str
  | .ok s => s
  | .err s _ => s

/-- Sequence a list of render steps. -/
def andAll : List PResult → PResult
  | [] => .ok []
  | r :: rs => r.and (andAll rs)

/-- `n` literal spaces, as written by the `{:>indent$}` padding writes. -/
def spaces (n : Nat) : Str := List.replicate n ' '

/-- The five reserved characters checked by `input.contains([...])`. -/
def isSpecial5 (c : Char) : Bool :=
  (c == '<') || (c == '>') || (c == apos) || (c == '"') || (c == '&')

/-- `char::is_ascii_control`: U+0000..U+001F and U+007F. -/
def isAsciiControl (c : Char) : Bool :=
  decide (c.toNat < 32) || (c.toNat == 127)

/-- One uppercase hexadecimal digit. -/
def hexDigit (n : Nat) : Char :=
  if n < 10 then Char.ofNat (48 + n) else Char.ofNat (55 + n)

/-- Digit accumulator for `toHexUpper`, structurally recursive on a fuel
bound so that it reduces in the kernel (the fuel `n + 1` always
suffices, as each step divides `n` by 16). -/
def toHexCore : Nat → Nat → Str → Str
  | 0, _, ds => ds
  | fuel + 1, n, ds =>
    if n < 16 then hexDigit n :: ds else toHexCore fuel (n / 16) (hexDigit (n % 16) :: ds)

/-- Uppercase hexadecimal digits of `n`, most significant first. -/
def toHexUpper (n : Nat) : Str := toHexCore (n + 1) n []

/-- Zero-pad a digit string on the left to width 4, as `{:>04X}` does. -/
def pad4 (ds : Str) : Str := List.replicate (4 - ds.length) '0' ++ ds

/-- The numeric hex entity `&#xHHHH;` produced by `format!("&#x{:>04X};", ch as u32)`. -/
def hexEntity (c : Char) : Str :=
  '&' :: '#' :: 'x' :: (pad4 (toHexUpper c.toNat) ++ [';'])

/-- One arm of the slow-path `match (mode, ch)` of `process_entities`,
with the source's arm order preserved. -/
def escapeChar : EntityMode → Char → Str
  | .Standard, c =>
    if c = '&' then ("&amp;".data)
    else if c = apos then ("&apos;".data)
    else if c = '"' then ("&quot;".data)
    else if c = '<' then ("&lt;".data)
    else if c = '>' then ("&gt;".data)
    else if isAsciiControl c then hexEntity c
    else [c]
  | .Hex, c =>
    if isSpecial5 c then hexEntity c
    else if isAsciiControl c then hexEntity c
    else [c]

/-- `process_entities` from src/src/display.rs: fast path returns the
input unchanged when it holds none of the five reserved characters and
no ASCII control character; otherwise every character is rewritten. -/
def process_entities (input : Str) (mode : EntityMode) : Str :=
  if input.any isSpecial5 || input.any isAsciiControl then
    input.flatMap (escapeChar mode)
  else
    input

/-- `char::is_whitespace`: the Unicode White_Space code points, used by
`str::trim` in the Text arm of `NodeValue::print`. -/
def isRustWhitespace (c : Char) : Bool :=
  let n := c.toNat
  (n == 0x9) || (n == 0xA) || (n == 0xB) || (n == 0xC) || (n == 0xD) ||
  (n == 0x20) || (n == 0x85) || (n == 0xA0) || (n == 0x1680) ||
  (decide (0x2000 ≤ n) && decide (n ≤ 0x200A)) ||
  (n == 0x2028) || (n == 0x2029) || (n == 0x202F) || (n == 0x205F) || (n == 0x3000)

/-- `str::trim`: drop leading and trailing whitespace. -/
def trimStr (s : Str) : Str :=
  ((s.dropWhile isRustWhitespace).reverse.dropWhile isRustWhitespace).reverse

/-- One rendered attribute `name="escaped-value"`; the name is written
raw, only the value goes through `process_entities`. -/
def attrChunk (mode : EntityMode) (kv : Str × Str) : Str :=
  kv.1 ++ ("=\"".data) ++ process_entities kv.2 mode ++ ("\"".data)

/-- `fmt_attrs` from src/src/display.rs.  `indent` is the indentation of
the owning element; `with_indent` adds `config.indent` only in pretty
mode.  The estimated line length decides between the inline layout and
the one-attribute-per-line layout. -/
def fmt_attrs (tag : Str) (config : Config) (indent : Nat) (attrs : List (Str × Str)) : Str :=
  let lineLength := tag.length + 2 +
    attrs.foldl (fun acc kv => acc + (kv.1.length + kv.2.length + 4)) 0
  let isNewlines := config.is_pretty = true ∧ config.max_line_length < lineLength
  let attrIndent := if config.is_pretty then indent + config.indent else indent
  match attrs with
  | [] => []
  | kv :: rest =>
    (if isNewlines then '\n' :: spaces attrIndent else []) ++ attrChunk config.entity_mode kv ++
      rest.flatMap (fun kv₂ =>
        (if isNewlines then '\n' :: spaces attrIndent else [' ']) ++ attrChunk config.entity_mode kv₂)

/-- The shared leaf emission of `NodeValue::print`: indentation iff
pretty, the body, then a newline iff pretty. -/
def leafOut (config : Config) (indent : Nat) (body : Str) : PResult :=
  .ok ((if config.is_pretty then spaces indent else []) ++ body ++
       (if config.is_pretty then ['\n'] else []))

/-- `NodeValue::print` from src/src/display.rs, with the Element arm of
`ElementValue::print` embedded in place of the dispatch (`ElementValue.print`
below is the dispatched entry point).  `key` is the node's own key, used
only to look up its attributes; `indent` is the accumulated indentation. -/
def NodeValue.print (doc : Document) (config : Config) :
    Nat → Nat → Nat → NodeValue → PResult
  | fuel, indent, key, .element e =>
    let nl : Str := if config.is_pretty then ['\n'] else []
    if e.children = [] then
      match List.lookup key doc.attrs with
      | some (kv :: rest) =>
        .ok (spaces indent ++ '<' :: e.name ++ ' ' ::
             fmt_attrs e.name config indent (kv :: rest) ++ (" />".data) ++ nl)
      | _ => .ok (spaces indent ++ '<' :: e.name ++ (" />".data) ++ nl)
    else
      let opening : Str :=
        match List.lookup key doc.attrs with
        | some (kv :: rest) =>
          spaces indent ++ '<' :: e.name ++ ' ' ::
            fmt_attrs e.name config indent (kv :: rest) ++ (">".data) ++ nl
        | _ => spaces indent ++ '<' :: e.name ++ (">".data) ++ nl
      let childIndent := if config.is_pretty then indent + config.indent else indent
      let childrenOut : PResult :=
        match fuel with
        | 0 => .err [] .fuelOut
        | fuel' + 1 =>
          andAll (e.children.map (fun k =>
            match List.lookup k doc.nodes with
            | none => .err [] .brokenReference
            | some v => NodeValue.print doc config fuel' childIndent k v))
      (PResult.ok opening).and (childrenOut.and
        (.ok (spaces indent ++ ("</".data) ++ e.name ++ (">".data) ++ nl)))
  | _, indent, _, .text t =>
    leafOut config indent (trimStr (process_entities t config.entity_mode))
  | _, indent, _, .cdata t =>
    leafOut config indent (("<![CDATA[".data) ++ t ++ ("]]>".data))
  | _, indent, _, .documentType t =>
    leafOut config indent (("<!DOCTYPE".data) ++ t ++ (">".data))
  | _, indent, _, .comment t =>
    leafOut config indent (("<!--".data) ++ t ++ ("-->".data))

/-- `ElementValue::print`: the Element arm of the renderer. -/
def ElementValue.print (doc : Document) (config : Config)
    (fuel indent key : Nat) (e : ElementValue) : PResult :=
  NodeValue.print doc config fuel indent key (.element e)

/-- One of the key loops of display.rs (`before`, `after`, and the child
loop of `ElementValue::print` all have this shape): look each key up in
`nodes` — a missing key is the `unwrap()` abort — and print the node. -/
def renderKeys (doc : Document) (config : Config) (fuel indent : Nat)
    (keys : List Nat) : PResult :=
  andAll (keys.map (fun k =>
    match List.lookup k doc.nodes with
    | none => .err [] .brokenReference
    | some v => NodeValue.print doc config fuel indent k v))

/-- The children portion of `ElementValue::print`: one fuel unit is
consumed to enter the child loop, which renders each child key at the
child indentation (`with_indent`). -/
def childrenResult (doc : Document) (config : Config) (fuel indent : Nat)
    (e : ElementValue) : PResult :=
  match fuel with
  | 0 => .err [] .fuelOut
  | fuel' + 1 =>
    renderKeys doc config fuel'
      (if config.is_pretty then indent + config.indent else indent) e.children

/-- `Declaration::print` from src/src/display.rs (infallible, so plain
text): each present field is written with one trailing space, values
raw, then `?>` and a newline iff pretty. -/
def Declaration.print (d : Declaration) (config : Config) : Str :=
  ("<?xml ".data) ++
  (match d.version with
   | some v => ("version=\"".data) ++ v ++ ("\" ".data)
   | none => []) ++
  (match d.encoding with
   | some v => ("encoding=\"".data) ++ v ++ ("\" ".data)
   | none => []) ++
  (match d.standalone with
   | some v => ("standalone=\"".data) ++ v ++ ("\" ".data)
   | none => []) ++
  ("?>".data) ++
  (if config.is_pretty then ['\n'] else [])

/-- The declaration part of `Document::print`: nothing when absent. -/
def declOut (doc : Document) (config : Config) : Str :=
  match doc.decl with
  | some d => d.print config
  | none => []

/-- `Document::print` from src/src/display.rs: declaration, then the
`before` keys at indent 0, then the root (whose node must exist and be
an Element — the two `unwrap()` sites), then the `after` keys. -/
def Document.print (doc : Document) (config : Config) (fuel : Nat) : PResult :=
  (((PResult.ok (declOut doc config)).and
    (renderKeys doc config fuel 0 doc.before)).and
   (match List.lookup doc.root_key doc.nodes with
    | none => .err [] .brokenReference
    | some v =>
      match v.as_element with
      | none => .err [] .invalidRoot
      | some e => ElementValue.print doc config fuel 0 doc.root_key e)).and
  (renderKeys doc config fuel 0 doc.after)

/-- Modelled from the spec (§4.2 step 4): the estimated rendered line
length, name length + 2 + the sum over attributes of key length + value
length + 4. -/
def specAttrEstimate (tag : Str) (attrs : List (Str × Str)) : Nat :=
  tag.length + 2 + (attrs.map (fun kv => kv.1.length + kv.2.length + 4)).sum

/-- Modelled from the spec: inline attribute layout, the chunks
separated by single spaces with no leading separator. -/
def specInlineAttrs (mode : EntityMode) (attrs : List (Str × Str)) : Str :=
  List.intercalate ([' ']) (attrs.map (attrChunk mode))

/-- Modelled from the spec: one-attribute-per-line layout, each
attribute preceded by a newline and indentation equal to the element's
depth plus one indent step, applied once per attribute. -/
def specWrappedAttrs (config : Config) (indent : Nat) (attrs : List (Str × Str)) : Str :=
  attrs.flatMap (fun kv => '\n' :: (spaces (indent + config.indent) ++ attrChunk config.entity_mode kv))

/-- Modelled from the spec: one optional declaration field, rendered as
`name="value" ` (value raw, one trailing space) when present. -/
def specDeclField (n : Str) (o : Option Str) : Str :=
  match o with
  | some v => n ++ ("=\"".data) ++ v ++ ("\" ".data)
  | none => []

/-- Modelled from the spec (§4.2 rule 2 and §6): the declaration wire
shape, version then encoding then standalone, a guaranteed space before
`?>`, a newline iff pretty. -/
def specDeclRender (d : Declaration) (config : Config) : Str :=
  ("<?xml ".data) ++
  specDeclField ("version".data) d.version ++
  specDeclField ("encoding".data) d.encoding ++
  specDeclField ("standalone".data) d.standalone ++
  ("?>".data) ++
  (if config.is_pretty then ['\n'] else [])

/-- Modelled from the spec: the declaration in compact mode (no
trailing newline). -/
def specDeclCompact (d : Declaration) : Str :=
  ("<?xml ".data) ++
  specDeclField ("version".data) d.version ++
  specDeclField ("encoding".data) d.encoding ++
  specDeclField ("standalone".data) d.standalone ++
  ("?>".data)

/-- Modelled from the spec (§8, compact mode): the compact renderer,
which inserts no indentation and no newlines anywhere — it mentions
neither `indent`, `max_line_length` nor any whitespace beyond the
single spaces separating inline attributes. -/
def specCompactNode (doc : Document) (mode : EntityMode) :
    Nat → Nat → NodeValue → PResult
  | fuel, key, .element e =>
    if e.children = [] then
      match List.lookup key doc.attrs with
      | some (kv :: rest) =>
        .ok ('<' :: e.name ++ ' ' :: specInlineAttrs mode (kv :: rest) ++ (" />".data))
      | _ => .ok ('<' :: e.name ++ (" />".data))
    else
      let opening : Str :=
        match List.lookup key doc.attrs with
        | some (kv :: rest) =>
          '<' :: e.name ++ ' ' :: specInlineAttrs mode (kv :: rest) ++ (">".data)
        | _ => '<' :: e.name ++ (">".data)
      let childrenOut : PResult :=
        match fuel with
        | 0 => .err [] .fuelOut
        | fuel' + 1 =>
          andAll (e.children.map (fun k =>
            match List.lookup k doc.nodes with
            | none => .err [] .brokenReference
            | some v => specCompactNode doc mode fuel' k v))
      (PResult.ok opening).and (childrenOut.and (.ok (("</".data) ++ e.name ++ (">".data))))
  | _, _, .text t => .ok (trimStr (process_entities t mode))
  | _, _, .cdata t => .ok (("<![CDATA[".data) ++ t ++ ("]]>".data))
  | _, _, .documentType t => .ok (("<!DOCTYPE".data) ++ t ++ (">".data))
  | _, _, .comment t => .ok (("<!--".data) ++ t ++ ("-->".data))

/-- Modelled from the spec: the compact renderer over a key list. -/
def specCompactKeys (doc : Document) (mode : EntityMode) (fuel : Nat)
    (keys : List Nat) : PResult :=
  andAll (keys.map (fun k =>
    match List.lookup k doc.nodes with
    | none => .err [] .brokenReference
    | some v => specCompactNode doc mode fuel k v))

/-- Modelled from the spec: the compact renderer at document level,
declaration then leading keys then root then trailing keys. -/
def specCompactDocument (doc : Document) (mode : EntityMode) (fuel : Nat) : PResult :=
  (((PResult.ok (match doc.decl with
     | some d => specDeclCompact d
     | none => [])).and
    (specCompactKeys doc mode fuel doc.before)).and
   (match List.lookup doc.root_key doc.nodes with
    | none => .err [] .brokenReference
    | some v =>
      match v.as_element with
      | none => .err [] .invalidRoot
      | some e => specCompactNode doc mode fuel doc.root_key (.element e))).and
  (specCompactKeys doc mode fuel doc.after)

/-- A compact configuration (the `Config::default()` values). -/
def cfgCompact : Config := ⟨false, 0, 0, .Standard⟩

/-- A document with empty storage (leaf printing never consults it). -/
def docEmpty : Document := ⟨[], [], 0, none, [], []⟩

/-- A document whose root key maps to a Text node and which carries a
declaration. -/
def docTextRoot : Document :=
  { nodes := [(0, .text ("x".data))], attrs := [], root_key := 0,
    decl := some ⟨some ("1.0".data), none, none⟩, before := [], after := [] }

/-- A document whose node storage holds an element (key 1, never
reachable from the root) whose child list references the dangling key 2. -/
def docOrphanDangling : Document :=
  { nodes := [(0, .element ⟨("a".data), []⟩), (1, .element ⟨("b".data), [2]⟩)],
    attrs := [], root_key := 0, decl := none, before := [], after := [] }

/-- The nested tree `<a><b>x</b></a>` of the compact-mode test. -/
def docNested : Document :=
  { nodes := [(0, .element ⟨("a".data), [1]⟩), (1, .element ⟨("b".data), [2]⟩),
              (2, .text ("x".data))],
    attrs := [], root_key := 0, decl := none, before := [], after := [] }

/-- The `row` element with attributes `a="1"`, `bb="22"` of the
attribute-wrap test. -/
def docRow : Document :=
  { nodes := [(0, .element ⟨("row".data), []⟩)],
    attrs := [(0, [(("a".data), ("1".data)), (("bb".data), ("22".data))])],
    root_key := 0, decl := none, before := [], after := [] }

theorem PResult.err_and (s : Str) (e : RenderError) (r : PResult) :
    (PResult.err s e).and r = .err s e := rfl

theorem PResult.ok_and_out (s : Str) (r : PResult) :
    ((PResult.ok s).and r).out = s ++ r.out := by
  cases r <;> rfl

theorem andAll_cons (r : PResult) (rs : List PResult) :
    andAll (r :: rs) = r.and (andAll rs) := rfl

theorem toNat_ne_imp_ne {c d : Char} (h : c.toNat ≠ d.toNat) : c ≠ d :=
  fun he => h (by rw [he])

theorem hexDigit_range :
    ∀ m, m < 16 →
      (48 ≤ (hexDigit m).toNat ∧ (hexDigit m).toNat ≤ 57) ∨
      (65 ≤ (hexDigit m).toNat ∧ (hexDigit m).toNat ≤ 70) := by
  decide

theorem toHexCore_mem :
    ∀ (fuel n : Nat) (ds : Str),
      (∀ x ∈ ds, (48 ≤ x.toNat ∧ x.toNat ≤ 57) ∨ (65 ≤ x.toNat ∧ x.toNat ≤ 70)) →
      ∀ c ∈ toHexCore fuel n ds,
        (48 ≤ c.toNat ∧ c.toNat ≤ 57) ∨ (65 ≤ c.toNat ∧ c.toNat ≤ 70) := by
  intro fuel
  induction fuel with
  | zero => intro n ds h c hc; exact h c hc
  | succ fuel ih =>
    intro n ds h c hc
    rw [toHexCore] at hc
    by_cases hn : n < 16
    · rw [if_pos hn] at hc
      rcases List.mem_cons.mp hc with hc | hc
      · subst hc; exact hexDigit_range n hn
      · exact h c hc
    · rw [if_neg hn] at hc
      refine ih (n / 16) (hexDigit (n % 16) :: ds) ?_ c hc
      intro x hx
      rcases List.mem_cons.mp hx with hx | hx
      · subst hx; exact hexDigit_range (n % 16) (Nat.mod_lt n (by omega))
      · exact h x hx

theorem hexRange_good (c : Char)
    (h : (48 ≤ c.toNat ∧ c.toNat ≤ 57) ∨ (65 ≤ c.toNat ∧ c.toNat ≤ 70)) :
    c ≠ '<' ∧ c ≠ '>' ∧ c ≠ apos ∧ c ≠ '"' ∧ isAsciiControl c = false := by
  have h60 : ('<' : Char).toNat = 60 := rfl
  have h62 : ('>' : Char).toNat = 62 := rfl
  have h39 : apos.toNat = 39 := rfl
  have h34 : ('"' : Char).toNat = 34 := rfl
  refine ⟨toNat_ne_imp_ne ?_, toNat_ne_imp_ne ?_, toNat_ne_imp_ne ?_, toNat_ne_imp_ne ?_, ?_⟩
  · rw [h60]; omega
  · rw [h62]; omega
  · rw [h39]; omega
  · rw [h34]; omega
  · simp only [isAsciiControl, Bool.or_eq_false_iff, decide_eq_false_iff_not,
      Nat.not_lt, beq_eq_false_iff_ne, ne_eq]
    omega

theorem hexEntity_mem (a : Char) (c : Char) (hc : c ∈ hexEntity a) :
    c ≠ '<' ∧ c ≠ '>' ∧ c ≠ apos ∧ c ≠ '"' ∧ isAsciiControl c = false := by
  simp only [hexEntity, pad4, toHexUpper, List.mem_cons, List.mem_append,
    List.mem_replicate, List.not_mem_nil, or_false] at hc
  rcases hc with hc | hc | hc | ((hc | hc) | hc)
  · subst hc; decide
  · subst hc; decide
  · subst hc; decide
  · rcases hc with ⟨-, hc⟩; subst hc; decide
  · exact hexRange_good c (toHexCore_mem _ _ [] (by intro x hx; cases hx) c hc)
  · subst hc; decide

theorem escapeChar_standard_mem (a : Char) (c : Char)
    (hc : c ∈ escapeChar .Standard a) :
    c ≠ '<' ∧ c ≠ '>' ∧ c ≠ apos ∧ c ≠ '"' ∧ isAsciiControl c = false := by
  simp only [escapeChar] at hc
  split_ifs at hc with h1 h2 h3 h4 h5 h6
  · exact (by decide :
      ∀ x ∈ ("&amp;".data), x ≠ '<' ∧ x ≠ '>' ∧ x ≠ apos ∧ x ≠ '"' ∧ isAsciiControl x = false) c hc
  · exact (by decide :
      ∀ x ∈ ("&apos;".data), x ≠ '<' ∧ x ≠ '>' ∧ x ≠ apos ∧ x ≠ '"' ∧ isAsciiControl x = false) c hc
  · exact (by decide :
      ∀ x ∈ ("&quot;".data), x ≠ '<' ∧ x ≠ '>' ∧ x ≠ apos ∧ x ≠ '"' ∧ isAsciiControl x = false) c hc
  · exact (by decide :
      ∀ x ∈ ("&lt;".data), x ≠ '<' ∧ x ≠ '>' ∧ x ≠ apos ∧ x ≠ '"' ∧ isAsciiControl x = false) c hc
  · exact (by decide :
      ∀ x ∈ ("&gt;".data), x ≠ '<' ∧ x ≠ '>' ∧ x ≠ apos ∧ x ≠ '"' ∧ isAsciiControl x = false) c hc
  · exact hexEntity_mem a c hc
  · rcases List.mem_singleton.mp hc with hc
    subst hc
    exact ⟨h4, h5, h2, h3, by simpa using h6⟩

theorem any_false_no_special {s : Str} {c : Char}
    (hb : (s.any isSpecial5 || s.any isAsciiControl) = false) (hc : c ∈ s) :
    c ≠ '<' ∧ c ≠ '>' ∧ c ≠ apos ∧ c ≠ '"' ∧ isAsciiControl c = false := by
  rcases Bool.or_eq_false_iff.mp hb with ⟨hs, hctl⟩
  have h1 : isSpecial5 c = false := by
    have := List.any_eq_false.mp hs c hc
    simpa using this
  have h2 : isAsciiControl c = false := by
    have := List.any_eq_false.mp hctl c hc
    simpa using this
  simp only [isSpecial5, Bool.or_eq_false_iff, beq_eq_false_iff_ne, ne_eq] at h1
  exact ⟨h1.1.1.1.1, h1.1.1.1.2, h1.1.1.2, h1.1.2, h2⟩

/-- C4 counterexample: the claim includes `&` among the characters the
Standard-mode output may not contain, but escaping `"<"` yields the
entity `&lt;`, which contains a literal `&`. -/
theorem c4_counterexample :
    process_entities ("<".data) EntityMode.Standard = ("&lt;".data) ∧
    '&' ∈ process_entities ("<".data) EntityMode.Standard := by
  decide

/-- C4 (amended): every character of the Standard-mode output of
`process_entities` is neither `<`, `>`, `'` nor `"`, and is not an
ASCII control character (the character `&` can appear: it starts the
emitted entities). -/
theorem c4_escape_no_reserved (s : Str) (c : Char)
    (hc : c ∈ process_entities s EntityMode.Standard) :
    c ≠ '<' ∧ c ≠ '>' ∧ c ≠ apos ∧ c ≠ '"' ∧ isAsciiControl c = false := by
  unfold process_entities at hc
  cases hb : (s.any isSpecial5 || s.any isAsciiControl) with
  | true =>
    rw [hb] at hc
    simp only [if_true] at hc
    rcases List.mem_flatMap.mp hc with ⟨a, _, hca⟩
    exact escapeChar_standard_mem a c hca
  | false =>
    rw [hb] at hc
    simp only [Bool.false_eq_true, if_false] at hc
    exact any_false_no_special hb hc

/-- C4 witness: the amended theorem applied to the input `"a"` and the
output character `a`. -/
theorem c4_witness :
    'a' ∈ process_entities ("a".data) EntityMode.Standard ∧
    ('a' ≠ '<' ∧ 'a' ≠ '>' ∧ 'a' ≠ apos ∧ 'a' ≠ '"' ∧ isAsciiControl 'a' = false) :=
  ⟨by decide, c4_escape_no_reserved ("a".data) 'a' (by decide)⟩

/-- C5: on input free of the five reserved characters and of ASCII
control characters, `process_entities` is the identity in both modes. -/
theorem c5_fast_path_identity (s : Str) (mode : EntityMode)
    (h : ∀ c ∈ s, isSpecial5 c = false ∧ isAsciiControl c = false) :
    process_entities s mode = s := by
  have hb : (s.any isSpecial5 || s.any isAsciiControl) = false := by
    simp only [Bool.or_eq_false_iff, List.any_eq_false]
    exact ⟨fun c hc => by simp [(h c hc).1], fun c hc => by simp [(h c hc).2]⟩
  unfold process_entities
  rw [hb]
  simp

/-- C5 witness: the fast-path identity at `"hello"` in Standard mode. -/
theorem c5_witness :
    (∀ c ∈ ("hello".data), isSpecial5 c = false ∧ isAsciiControl c = false) ∧
    process_entities ("hello".data) EntityMode.Standard = ("hello".data) :=
  ⟨by decide, c5_fast_path_identity ("hello".data) EntityMode.Standard (by decide)⟩

theorem renderKeys_nil (doc : Document) (config : Config) (fuel indent : Nat) :
    renderKeys doc config fuel indent [] = .ok [] := rfl

theorem renderKeys_cons (doc : Document) (config : Config) (fuel indent k : Nat)
    (ks : List Nat) :
    renderKeys doc config fuel indent (k :: ks) =
      (match List.lookup k doc.nodes with
       | none => PResult.err [] .brokenReference
       | some v => NodeValue.print doc config fuel indent k v).and
      (renderKeys doc config fuel indent ks) := rfl

theorem and_eq_ok {a b : PResult} {s : Str} (h : a.and b = .ok s) :
    ∃ s₁ s₂, a = .ok s₁ ∧ b = .ok s₂ ∧ s = s₁ ++ s₂ := by
  cases a with
  | ok s₁ =>
    cases b with
    | ok s₂ =>
      refine ⟨s₁, s₂, rfl, rfl, ?_⟩
      simpa [PResult.and] using h.symm
    | err s₂ e => simp [PResult.and] at h
  | err s₁ e => simp [PResult.and] at h

/-- C1 counterexample: a document with a declaration and a Text node at
the root key.  The render aborts with `invalidRoot`, but the declaration
has already been written to the sink when the abort happens, refuting
"no output is written before the error is surfaced". -/
theorem c1_counterexample :
    Document.print docTextRoot cfgCompact 1 =
      .err ("<?xml version=\"1.0\" ?>".data) .invalidRoot ∧
    ("<?xml version=\"1.0\" ?>".data : Str) ≠ [] := by
  decide

/-- C1 (amended): when the root key resolves to a node that is not an
Element, rendering aborts with `invalidRoot` — but only after the
declaration and the leading (`before`) nodes have been rendered, so
their output is already written when the error is surfaced.  (In the
source the abort is the `as_element().unwrap()` panic.) -/
theorem c1_invalid_root_after_declared_output :
    ∀ (doc : Document) (config : Config) (fuel : Nat) (v : NodeValue) (s : Str),
      List.lookup doc.root_key doc.nodes = some v →
      v.as_element = none →
      renderKeys doc config fuel 0 doc.before = .ok s →
      Document.print doc config fuel = .err (declOut doc config ++ s) .invalidRoot := by
  intro doc config fuel v s hroot helem hbefore
  simp [Document.print, hroot, helem, hbefore, PResult.and]

/-- C1 witness: the amended theorem applied to `docTextRoot`. -/
theorem c1_witness :
    Document.print docTextRoot cfgCompact 1 =
      .err (declOut docTextRoot cfgCompact ++ []) .invalidRoot :=
  c1_invalid_root_after_declared_output docTextRoot cfgCompact 1
    (.text ("x".data)) [] (by decide) rfl rfl

/-- C2 counterexample: `docOrphanDangling` contains an element whose
child list references the dangling key 2, yet rendering succeeds,
because that element is not reachable from the root — refuting the
claim for every document containing a dangling child reference. -/
theorem c2_counterexample :
    ((1, NodeValue.element ⟨("b".data), [2]⟩) ∈ docOrphanDangling.nodes) ∧
    List.lookup 2 docOrphanDangling.nodes = none ∧
    Document.print docOrphanDangling cfgCompact 1 = .ok ("<a />".data) := by
  decide

/-- C2 (amended): a dangling key is never silently skipped at the point
the renderer reaches it.  First part: in any rendered key list (the
`before` list, the `after` list, and the child list of a rendered
element all go through `renderKeys`), once the keys before the dangling
one have rendered successfully, the list renders to a `brokenReference`
abort carrying exactly the already-written text.  Second part: lifted to
`Document.print` for a dangling key in the `before` list.  (In the
source the abort is an `unwrap()` panic on the node lookup.) -/
theorem c2_broken_reference_surfaced :
    (∀ (doc : Document) (config : Config) (fuel indent : Nat)
       (ks₁ : List Nat) (k : Nat) (ks₂ : List Nat) (s : Str),
       renderKeys doc config fuel indent ks₁ = .ok s →
       List.lookup k doc.nodes = none →
       renderKeys doc config fuel indent (ks₁ ++ k :: ks₂) = .err s .brokenReference) ∧
    (∀ (doc : Document) (config : Config) (fuel : Nat)
       (ks₁ : List Nat) (k : Nat) (ks₂ : List Nat) (s : Str),
       doc.before = ks₁ ++ k :: ks₂ →
       renderKeys doc config fuel 0 ks₁ = .ok s →
       List.lookup k doc.nodes = none →
       Document.print doc config fuel = .err (declOut doc config ++ s) .brokenReference) := by
  have part1 : ∀ (doc : Document) (config : Config) (fuel indent : Nat)
      (ks₁ : List Nat) (k : Nat) (ks₂ : List Nat) (s : Str),
      renderKeys doc config fuel indent ks₁ = .ok s →
      List.lookup k doc.nodes = none →
      renderKeys doc config fuel indent (ks₁ ++ k :: ks₂) = .err s .brokenReference := by
    intro doc config fuel indent ks₁
    induction ks₁ with
    | nil =>
      intro k ks₂ s hok hmiss
      have hs : s = [] := by simpa [renderKeys, andAll] using hok.symm
      subst hs
      simp [renderKeys, andAll, hmiss, PResult.and]
    | cons k₀ ks ih =>
      intro k ks₂ s hok hmiss
      rw [renderKeys_cons] at hok
      obtain ⟨s₁, s₂, h1, h2, rfl⟩ := and_eq_ok hok
      rw [List.cons_append, renderKeys_cons, h1, ih k ks₂ s₂ h2 hmiss]
      rfl
  refine ⟨part1, ?_⟩
  intro doc config fuel ks₁ k ks₂ s hbefore hok hmiss
  have hfail := part1 doc config fuel 0 ks₁ k ks₂ s hok hmiss
  rw [← hbefore] at hfail
  simp [Document.print, hfail, PResult.and]

/-- C2 witness: the amended theorem applied to `docOrphanDangling` with
the dangling key 2 placed at the head of a rendered key list. -/
theorem c2_witness :
    renderKeys docOrphanDangling cfgCompact 1 0 ([] ++ 2 :: []) =
      .err [] .brokenReference :=
  c2_broken_reference_surfaced.1 docOrphanDangling cfgCompact 1 0 [] 2 [] []
    rfl (by decide)

theorem foldl_attr_len (l : List (Str × Str)) :
    ∀ a, l.foldl (fun acc kv => acc + (kv.1.length + kv.2.length + 4)) a
      = a + (l.map (fun kv => kv.1.length + kv.2.length + 4)).sum := by
  induction l with
  | nil => intro a; simp
  | cons kv rest ih => intro a; simp [List.foldl_cons, ih, List.sum_cons]; omega

theorem intercalate_cons_flat (sep : Str) (x : Str) (xs : List Str) :
    List.intercalate sep (x :: xs) = x ++ xs.flatMap (fun y => sep ++ y) := by
  induction xs generalizing x with
  | nil => simp [List.intercalate]
  | cons y ys ih =>
    have h1 : List.intercalate sep (x :: y :: ys)
        = x ++ sep ++ List.intercalate sep (y :: ys) := by
      simp [List.intercalate, List.intersperse_cons_cons, List.append_assoc]
    rw [h1, ih y]
    simp [List.flatMap_cons, List.append_assoc]

theorem fmt_attrs_cons (tag : Str) (config : Config) (indent : Nat)
    (kv : Str × Str) (rest : List (Str × Str)) :
    fmt_attrs tag config indent (kv :: rest) =
      (if config.is_pretty = true ∧ config.max_line_length <
          tag.length + 2 + (kv :: rest).foldl
            (fun acc kv => acc + (kv.1.length + kv.2.length + 4)) 0
       then '\n' :: spaces (if config.is_pretty then indent + config.indent else indent)
       else []) ++ attrChunk config.entity_mode kv ++
      rest.flatMap (fun kv₂ =>
        (if config.is_pretty = true ∧ config.max_line_length <
            tag.length + 2 + (kv :: rest).foldl
              (fun acc kv => acc + (kv.1.length + kv.2.length + 4)) 0
         then '\n' :: spaces (if config.is_pretty then indent + config.indent else indent)
         else [' ']) ++ attrChunk config.entity_mode kv₂) := rfl

/-- C3: for an element with at least one attribute, the printed
attribute text follows the spec's layout decision exactly: the estimate
is tag length + 2 + Σ (key length + value length + 4); when pretty mode
is on and the estimate strictly exceeds `max_line_length`, each
attribute is preceded by a newline and the element's indentation plus
one indent step (once per attribute, not cumulative); otherwise the
attributes are inline, separated by single spaces. -/
theorem c3_attr_layout :
    ∀ (tag : Str) (config : Config) (indent : Nat) (attrs : List (Str × Str)),
      attrs ≠ [] →
      fmt_attrs tag config indent attrs =
        if config.is_pretty = true ∧ config.max_line_length < specAttrEstimate tag attrs
        then specWrappedAttrs config indent attrs
        else specInlineAttrs config.entity_mode attrs := by
  intro tag config indent attrs h
  have hlen : ∀ l : List (Str × Str),
      tag.length + 2 + l.foldl (fun acc kv => acc + (kv.1.length + kv.2.length + 4)) 0
        = specAttrEstimate tag l := by
    intro l; rw [foldl_attr_len, specAttrEstimate]; omega
  match attrs, h with
  | kv :: rest, _ =>
    rw [fmt_attrs_cons, hlen (kv :: rest)]
    by_cases hc : config.is_pretty = true ∧
        config.max_line_length < specAttrEstimate tag (kv :: rest)
    · rw [if_pos hc, if_pos hc, if_pos hc]
      simp [hc.1, specWrappedAttrs, List.flatMap_cons, List.append_assoc]
    · rw [if_neg hc, if_neg hc, if_neg hc]
      rw [specInlineAttrs, List.map_cons, intercalate_cons_flat]
      simp [List.flatMap_map, Function.comp]

/-- C3 witness: the `row` element of the spec's wrap example, with
`max_line_length = 5` (the estimate is 22, so it wraps). -/
theorem c3_witness :
    fmt_attrs ("row".data) ⟨true, 2, 5, .Standard⟩ 0
        [(("a".data), ("1".data)), (("bb".data), ("22".data))] =
      if (⟨true, 2, 5, .Standard⟩ : Config).is_pretty = true ∧
          (⟨true, 2, 5, .Standard⟩ : Config).max_line_length <
            specAttrEstimate ("row".data)
              [(("a".data), ("1".data)), (("bb".data), ("22".data))]
      then specWrappedAttrs ⟨true, 2, 5, .Standard⟩ 0
            [(("a".data), ("1".data)), (("bb".data), ("22".data))]
      else specInlineAttrs EntityMode.Standard
            [(("a".data), ("1".data)), (("bb".data), ("22".data))] :=
  c3_attr_layout ("row".data) ⟨true, 2, 5, .Standard⟩ 0
    [(("a".data), ("1".data)), (("bb".data), ("22".data))] (by decide)

/-- C7: rendering a declaration produces the spec's wire shape —
version, then encoding, then standalone, each present field followed by
one trailing space (values written raw, with no entity escaping), then
`?>`, then a newline iff pretty; with all three fields absent the output
is exactly `<?xml ?>` (plus the pretty newline). -/
theorem c7_declaration_shape :
    (∀ (d : Declaration) (config : Config),
       Declaration.print d config = specDeclRender d config) ∧
    (∀ config : Config,
       Declaration.print ⟨none, none, none⟩ config =
         ("<?xml ?>".data) ++ (if config.is_pretty then ['\n'] else [])) := by
  have hv : ∀ t : Str, ("version".data : Str) ++ (("=\"".data) ++ t)
      = ("version=\"".data) ++ t := by
    intro t; rw [← List.append_assoc]
    exact congrArg (fun l => l ++ t) (by decide)
  have he : ∀ t : Str, ("encoding".data : Str) ++ (("=\"".data) ++ t)
      = ("encoding=\"".data) ++ t := by
    intro t; rw [← List.append_assoc]
    exact congrArg (fun l => l ++ t) (by decide)
  have hs : ∀ t : Str, ("standalone".data : Str) ++ (("=\"".data) ++ t)
      = ("standalone=\"".data) ++ t := by
    intro t; rw [← List.append_assoc]
    exact congrArg (fun l => l ++ t) (by decide)
  constructor
  · intro d config
    rcases d with ⟨ov, oe, os⟩
    cases ov <;> cases oe <;> cases os <;>
      simp [Declaration.print, specDeclRender, specDeclField,
        List.append_assoc, hv, he, hs]
  · intro config
    rcases config with ⟨p, i, m, em⟩
    cases p <;> simp [Declaration.print]

/-- C8: a Text node renders as its entity-escaped content with
surrounding whitespace trimmed (escape first, then trim), in every
mode; in particular the content `"  hello  "` renders as `hello` both
compactly and pretty-printed. -/
theorem c8_text_trimmed :
    (∀ (doc : Document) (config : Config) (fuel indent key : Nat) (t : Str),
       NodeValue.print doc config fuel indent key (.text t) =
         .ok ((if config.is_pretty then spaces indent else []) ++
              trimStr (process_entities t config.entity_mode) ++
              (if config.is_pretty then ['\n'] else []))) ∧
    NodeValue.print docEmpty cfgCompact 0 0 0 (.text ("  hello  ".data)) =
      .ok ("hello".data) ∧
    NodeValue.print docEmpty Config.default_pretty 0 0 0 (.text ("  hello  ".data)) =
      .ok (("hello".data) ++ ['\n']) := by
  refine ⟨fun doc config fuel indent key t => by simp [NodeValue.print, leafOut],
    by decide, by decide⟩

theorem attr_estimate_foldl (tag : Str) (l : List (Str × Str)) :
    tag.length + 2 + l.foldl (fun acc kv => acc + (kv.1.length + kv.2.length + 4)) 0
      = specAttrEstimate tag l := by
  rw [foldl_attr_len, specAttrEstimate]; omega

/-- C6: an element with an empty child list always renders in the
self-closing ` />` form — with or without attributes, pretty or not. -/
theorem c6_self_closing :
    ∀ (doc : Document) (config : Config) (fuel indent key : Nat) (e : ElementValue),
      e.children = [] →
      ∃ mid, ElementValue.print doc config fuel indent key e =
        .ok (spaces indent ++ '<' :: (e.name ++ mid ++ (" />".data)) ++
             (if config.is_pretty then ['\n'] else [])) := by
  intro doc config fuel indent key e hch
  cases hattr : List.lookup key doc.attrs with
  | none =>
    refine ⟨[], ?_⟩
    simp [ElementValue.print, NodeValue.print, hch, hattr, List.append_assoc]
  | some l =>
    cases l with
    | nil =>
      refine ⟨[], ?_⟩
      simp [ElementValue.print, NodeValue.print, hch, hattr, List.append_assoc]
    | cons kv rest =>
      refine ⟨' ' :: fmt_attrs e.name config indent (kv :: rest), ?_⟩
      simp [ElementValue.print, NodeValue.print, hch, hattr, List.append_assoc]

/-- C6 witness: the self-closing form for the childless `row` element. -/
theorem c6_witness :
    ∃ mid, ElementValue.print docRow cfgCompact 1 0 0 ⟨("row".data), []⟩ =
      .ok (spaces 0 ++ '<' :: (("row".data) ++ mid ++ (" />".data)) ++
           (if cfgCompact.is_pretty then ['\n'] else [])) :=
  c6_self_closing docRow cfgCompact 1 0 0 ⟨("row".data), []⟩ rfl

theorem attrChunk_getLast (mode : EntityMode) (kv : Str × Str) :
    (attrChunk mode kv).getLast? = some '"' := by
  have h : attrChunk mode kv
      = (kv.1 ++ ("=\"".data) ++ process_entities kv.2 mode) ++ [('"' : Char)] := rfl
  rw [h, List.getLast?_concat]

theorem flatMap_attr_getLast (mode : EntityMode) (sep : Str) :
    ∀ rest : List (Str × Str), rest ≠ [] →
      (rest.flatMap (fun kv => sep ++ attrChunk mode kv)).getLast? = some '"' := by
  intro rest
  induction rest with
  | nil => intro h; exact absurd rfl h
  | cons y ys ih =>
    intro _
    rw [List.flatMap_cons, List.getLast?_append]
    by_cases hys : ys = []
    · subst hys
      simp [List.getLast?_append, attrChunk_getLast]
    · rw [ih hys]; rfl

theorem fmt_attrs_getLast (tag : Str) (config : Config) (indent : Nat)
    (kv : Str × Str) (rest : List (Str × Str)) :
    (fmt_attrs tag config indent (kv :: rest)).getLast? = some '"' := by
  rw [fmt_attrs_cons]
  by_cases h : rest = []
  · subst h
    simp [List.getLast?_append, attrChunk_getLast]
  · rw [List.getLast?_append,
      flatMap_attr_getLast config.entity_mode _ rest h]
    rfl

theorem elem_print_children (doc : Document) (config : Config)
    (fuel indent key : Nat) (e : ElementValue) (kv : Str × Str)
    (rest : List (Str × Str))
    (hattr : List.lookup key doc.attrs = some (kv :: rest))
    (hch : ¬ e.children = []) :
    ElementValue.print doc config fuel indent key e =
      (PResult.ok (spaces indent ++ '<' :: e.name ++ ' ' ::
        fmt_attrs e.name config indent (kv :: rest) ++ (">".data) ++
        (if config.is_pretty then ['\n'] else []))).and
      ((childrenResult doc config fuel indent e).and
       (.ok (spaces indent ++ ("</".data) ++ e.name ++ (">".data) ++
             (if config.is_pretty then ['\n'] else [])))) := by
  cases fuel <;>
    simp [ElementValue.print, NodeValue.print, childrenResult, renderKeys, hattr, hch]

/-- C10: for an element with at least one attribute, the opening tag is
`<name ` — one space between the tag name and the attribute text; in
one-attribute-per-line mode that space comes before the first newline
(the attribute text begins with `'\n'`); and the attribute text ends
with `'"'`, with the closing `/>` or `>` following it directly, so no
newline precedes the closing bracket. -/
theorem c10_attr_spacing :
    ∀ (doc : Document) (config : Config) (fuel indent key : Nat) (e : ElementValue)
      (kv : Str × Str) (rest : List (Str × Str)),
      List.lookup key doc.attrs = some (kv :: rest) →
      (∃ tail, (ElementValue.print doc config fuel indent key e).out =
          spaces indent ++ '<' :: (e.name ++ ' ' ::
            (fmt_attrs e.name config indent (kv :: rest) ++
             ((if e.children = [] then (" />".data) else (">".data)) ++ tail)))) ∧
      ((config.is_pretty = true ∧
          config.max_line_length < specAttrEstimate e.name (kv :: rest)) →
        (fmt_attrs e.name config indent (kv :: rest)).head? = some '\n') ∧
      (fmt_attrs e.name config indent (kv :: rest)).getLast? = some '"' := by
  intro doc config fuel indent key e kv rest hattr
  refine ⟨?_, ?_, fmt_attrs_getLast e.name config indent kv rest⟩
  · by_cases hch : e.children = []
    · refine ⟨(if config.is_pretty then ['\n'] else []), ?_⟩
      simp [ElementValue.print, NodeValue.print, hch, hattr, PResult.out,
        List.append_assoc]
    · refine ⟨(if config.is_pretty then ['\n'] else []) ++
        ((childrenResult doc config fuel indent e).and
         (.ok (spaces indent ++ ("</".data) ++ e.name ++ (">".data) ++
               (if config.is_pretty then ['\n'] else [])))).out, ?_⟩
      rw [elem_print_children doc config fuel indent key e kv rest hattr hch,
        PResult.ok_and_out]
      simp [hch, List.append_assoc]
  · intro hc
    rw [fmt_attrs_cons, attr_estimate_foldl e.name (kv :: rest),
      if_pos hc]
    rfl

/-- C10 witness: the `row` element with two attributes, compact mode. -/
theorem c10_witness :
    (∃ tail, (ElementValue.print docRow cfgCompact 1 0 0 ⟨("row".data), []⟩).out =
        spaces 0 ++ '<' :: (("row".data) ++ ' ' ::
          (fmt_attrs ("row".data) cfgCompact 0
              [(("a".data), ("1".data)), (("bb".data), ("22".data))] ++
           ((if ([] : List Nat) = [] then (" />".data) else (">".data)) ++ tail)))) ∧
    ((cfgCompact.is_pretty = true ∧
        cfgCompact.max_line_length < specAttrEstimate ("row".data)
          [(("a".data), ("1".data)), (("bb".data), ("22".data))]) →
      (fmt_attrs ("row".data) cfgCompact 0
          [(("a".data), ("1".data)), (("bb".data), ("22".data))]).head? = some '\n') ∧
    (fmt_attrs ("row".data) cfgCompact 0
        [(("a".data), ("1".data)), (("bb".data), ("22".data))]).getLast? = some '"' :=
  c10_attr_spacing docRow cfgCompact 1 0 0 ⟨("row".data), []⟩
    (("a".data), ("1".data)) [(("bb".data), ("22".data))] (by decide)

theorem version_lit (t : Str) :
    ("version".data : Str) ++ (("=\"".data) ++ t) = ("version=\"".data) ++ t := by
  rw [← List.append_assoc]; exact congrArg (fun l => l ++ t) (by decide)

theorem encoding_lit (t : Str) :
    ("encoding".data : Str) ++ (("=\"".data) ++ t) = ("encoding=\"".data) ++ t := by
  rw [← List.append_assoc]; exact congrArg (fun l => l ++ t) (by decide)

theorem standalone_lit (t : Str) :
    ("standalone".data : Str) ++ (("=\"".data) ++ t) = ("standalone=\"".data) ++ t := by
  rw [← List.append_assoc]; exact congrArg (fun l => l ++ t) (by decide)

theorem decl_print_compact (d : Declaration) (config : Config)
    (hp : config.is_pretty = false) :
    Declaration.print d config = specDeclCompact d := by
  rcases d with ⟨ov, oe, os⟩
  cases ov <;> cases oe <;> cases os <;>
    simp [Declaration.print, specDeclCompact, specDeclField, hp,
      List.append_assoc, version_lit, encoding_lit, standalone_lit]

theorem fmt_attrs_compact (tag : Str) (config : Config) (indent : Nat)
    (attrs : List (Str × Str)) (hp : config.is_pretty = false) :
    fmt_attrs tag config indent attrs = specInlineAttrs config.entity_mode attrs := by
  cases attrs with
  | nil => rfl
  | cons kv rest =>
    rw [fmt_attrs_cons]
    have hcond : ¬ (config.is_pretty = true ∧ config.max_line_length <
        tag.length + 2 + (kv :: rest).foldl
          (fun acc kv => acc + (kv.1.length + kv.2.length + 4)) 0) := by
      rw [hp]; simp
    rw [if_neg hcond, if_neg hcond]
    rw [specInlineAttrs, List.map_cons, intercalate_cons_flat]
    simp [List.flatMap_map, Function.comp]

theorem specCompactKeys_cons (doc : Document) (mode : EntityMode) (fuel k : Nat)
    (ks : List Nat) :
    specCompactKeys doc mode fuel (k :: ks) =
      (match List.lookup k doc.nodes with
       | none => PResult.err [] .brokenReference
       | some v => specCompactNode doc mode fuel k v).and
      (specCompactKeys doc mode fuel ks) := rfl

theorem renderKeys_eq_spec (doc : Document) (config : Config) (fuel : Nat)
    (hnode : ∀ (key : Nat) (v : NodeValue),
      NodeValue.print doc config fuel 0 key v =
        specCompactNode doc config.entity_mode fuel key v) :
    ∀ ks : List Nat, renderKeys doc config fuel 0 ks =
      specCompactKeys doc config.entity_mode fuel ks := by
  intro ks
  induction ks with
  | nil => rfl
  | cons k rest ih =>
    rw [renderKeys_cons, specCompactKeys_cons, ih]
    cases h : List.lookup k doc.nodes with
    | none => simp
    | some v => simp [hnode k v]

theorem compact_node_eq (doc : Document) (config : Config)
    (hp : config.is_pretty = false) :
    ∀ (fuel key : Nat) (v : NodeValue),
      NodeValue.print doc config fuel 0 key v =
        specCompactNode doc config.entity_mode fuel key v := by
  intro fuel
  induction fuel using Nat.strong_induction_on with
  | _ fuel ih =>
    intro key v
    cases v with
    | text t => simp [NodeValue.print, specCompactNode, leafOut, hp]
    | cdata t => simp [NodeValue.print, specCompactNode, leafOut, hp]
    | documentType t => simp [NodeValue.print, specCompactNode, leafOut, hp]
    | comment t => simp [NodeValue.print, specCompactNode, leafOut, hp]
    | element e =>
      cases fuel with
      | zero =>
        by_cases hch : e.children = [] <;>
        · cases hattr : List.lookup key doc.attrs with
          | none => simp [NodeValue.print, specCompactNode, hch, hattr, hp, spaces]
          | some l =>
            cases l with
            | nil => simp [NodeValue.print, specCompactNode, hch, hattr, hp, spaces]
            | cons kv rest =>
              simp [NodeValue.print, specCompactNode, hch, hattr, hp, spaces,
                fmt_attrs_compact _ _ _ _ hp]
      | succ fuel' =>
        have hc : renderKeys doc config fuel' 0 e.children =
            specCompactKeys doc config.entity_mode fuel' e.children :=
          renderKeys_eq_spec doc config fuel'
            (fun k v => ih fuel' (Nat.lt_succ_self fuel') k v) e.children
        by_cases hch : e.children = []
        · cases hattr : List.lookup key doc.attrs with
          | none => simp [NodeValue.print, specCompactNode, hch, hattr, hp, spaces]
          | some l =>
            cases l with
            | nil => simp [NodeValue.print, specCompactNode, hch, hattr, hp, spaces]
            | cons kv rest =>
              simp [NodeValue.print, specCompactNode, hch, hattr, hp, spaces,
                fmt_attrs_compact _ _ _ _ hp]
        · cases hattr : List.lookup key doc.attrs with
          | none =>
            simp only [NodeValue.print, specCompactNode, hch, hattr, hp, spaces]
            simp
            refine congrArg (PResult.and _) ?_
            exact congrArg (fun z => PResult.and z _) hc
          | some l =>
            cases l with
            | nil =>
              simp only [NodeValue.print, specCompactNode, hch, hattr, hp, spaces]
              simp
              refine congrArg (PResult.and _) ?_
              exact congrArg (fun z => PResult.and z _) hc
            | cons kv rest =>
              simp only [NodeValue.print, specCompactNode, hch, hattr, hp, spaces]
              simp [fmt_attrs_compact _ _ _ _ hp]
              refine congrArg (PResult.and _) ?_
              exact congrArg (fun z => PResult.and z _) hc

theorem compact_document_eq (doc : Document) (config : Config) (fuel : Nat)
    (hp : config.is_pretty = false) :
    Document.print doc config fuel = specCompactDocument doc config.entity_mode fuel := by
  have hnode := compact_node_eq doc config hp fuel
  have hkeys : ∀ ks : List Nat, renderKeys doc config fuel 0 ks =
      specCompactKeys doc config.entity_mode fuel ks :=
    renderKeys_eq_spec doc config fuel (fun k v => hnode k v)
  have hdecl : declOut doc config =
      (match doc.decl with
       | some d => specDeclCompact d
       | none => []) := by
    cases hd : doc.decl with
    | none => simp [declOut, hd]
    | some d => simp [declOut, hd, decl_print_compact d config hp]
  rw [Document.print, specCompactDocument, hdecl, hkeys doc.before, hkeys doc.after]
  congr 2
  cases hroot : List.lookup doc.root_key doc.nodes with
  | none => rfl
  | some v =>
    cases v with
    | element e => simpa [NodeValue.as_element, ElementValue.print] using hnode doc.root_key (.element e)
    | text t => rfl
    | cdata t => rfl
    | documentType t => rfl
    | comment t => rfl

/-- C9: with `pretty = false` the renderer equals the spec's compact
renderer, which inserts no indentation and no newlines and never reads
the configured indent width or line length; and the nested tree
`<a><b>x</b></a>` renders to exactly that single line (here with a
nonzero indent width configured). -/
theorem c9_compact_no_whitespace :
    (∀ (doc : Document) (config : Config) (fuel : Nat),
       config.is_pretty = false →
       Document.print doc config fuel = specCompactDocument doc config.entity_mode fuel) ∧
    Document.print docNested ⟨false, 4, 7, .Standard⟩ 3 = .ok ("<a><b>x</b></a>".data) := by
  exact ⟨fun doc config fuel hp => compact_document_eq doc config fuel hp, by decide⟩

/-- C9 witness: the compact refinement applied to the nested document
with indent width 4 configured. -/
theorem c9_witness :
    Document.print docNested ⟨false, 4, 7, .Standard⟩ 3 =
      specCompactDocument docNested EntityMode.Standard 3 :=
  c9_compact_no_whitespace.1 docNested ⟨false, 4, 7, .Standard⟩ 3 rfl

end Xmlem
